import Mathlib

/-!
A shallow embedding of `src/tokenRoutes.ts` (across-protocol/helper-scripts):
the event-sourced state reconstruction for hub and spoke pool contracts and
the route join of `fetchRoutes`.  Every definition mirrors the TypeScript
source; JavaScript records with string keys are modelled as association
lists in insertion order, JS `Set` as a duplicate-free list in insertion
order, thrown exceptions as `Except.error`, and `undefined` as `Option.none`.
-/

set_option autoImplicit false

namespace TokenRoutes

/-- Decoded argument payload of a hub-pool event; only the fields that
`tokenRoutes.ts` reads are modelled. -/
inductive HubArgs where
  | l1TokenEnabledForLiquidityProvision (l1Token lpToken : String)
  | l2TokenDisabledForLiquidityProvision (l1Token : String)
  | setEnableDepositRoute (originChainId destinationChainId : Nat)
      (originToken : String) (depositsEnabled : Bool)
  | crossChainContractsSet (l2ChainId : Nat) (spokePool : String)
  | setPoolRebalanceRoute (destinationChainId : Nat) (l1Token destinationToken : String)
  deriving DecidableEq, Repr

/-- A decoded hub-pool event as consumed by `HubPoolUtils`: the ethers `Event`
metadata fields used for ordering plus the decoded args. -/
structure HubEvt where
  blockNumber : Nat
  transactionIndex : Nat
  logIndex : Nat
  transactionHash : String
  args : HubArgs
  deriving DecidableEq, Repr

/-- The ordering key `(blockNumber, transactionIndex, logIndex)` of an event. -/
def keyOf (e : HubEvt) : Nat × Nat × Nat :=
  (e.blockNumber, e.transactionIndex, e.logIndex)

/-- The comparator of `HubPoolUtils.fetchEvents`'s `.sort(...)` call, with
`Ordering.eq` standing for the case in which the source throws the
duplicate-event error instead of returning. -/
def cmpEvt (a b : HubEvt) : Ordering :=
  if a.blockNumber ≠ b.blockNumber then
    (if a.blockNumber < b.blockNumber then .lt else .gt)
  else if a.transactionIndex ≠ b.transactionIndex then
    (if a.transactionIndex < b.transactionIndex then .lt else .gt)
  else if a.logIndex ≠ b.logIndex then
    (if a.logIndex < b.logIndex then .lt else .gt)
  else .eq

/-- The message of the error thrown by the sort comparator on a full
ordering-key tie. -/
def dupMsg (h : String) : String :=
  "Duplicate events found on transaction: " ++ h

/-- Ordered insertion driven by `cmpEvt`; hitting a tie propagates the
duplicate-event error, exactly as the comparator of the source throws. -/
def insertEvt (x : HubEvt) : List HubEvt → Except String (List HubEvt)
  | [] => .ok [x]
  | y :: ys =>
    match cmpEvt x y with
    | .lt => .ok (x :: y :: ys)
    | .eq => .error (dupMsg x.transactionHash)
    | .gt => (insertEvt x ys).map (fun l => y :: l)

/-- Comparison sort of the combined hub log by `cmpEvt`, failing with the
duplicate-event error whenever the comparator would be applied to two
events that tie on the full ordering key. -/
def sortEvts : List HubEvt → Except String (List HubEvt)
  | [] => .ok []
  | x :: xs => (sortEvts xs).bind (insertEvt x)

/-- `HubPoolUtils.fetchEvents`: the five per-event-kind query results are
concatenated (in the fixed kind order of the source) and globally sorted. -/
def hubFetchEvents (l1 l2 l3 l4 l5 : List HubEvt) : Except String (List HubEvt) :=
  sortEvts (l1 ++ l2 ++ l3 ++ l4 ++ l5)

/-- Strict lexicographic order on ordering keys. -/
def kLt (p q : Nat × Nat × Nat) : Prop :=
  p.1 < q.1 ∨ (p.1 = q.1 ∧ (p.2.1 < q.2.1 ∨ (p.2.1 = q.2.1 ∧ p.2.2 < q.2.2)))

instance (p q : Nat × Nat × Nat) : Decidable (kLt p q) := by
  unfold kLt; infer_instance

/-- Strict event order: ordering keys compare lexicographically below. -/
def keyLt (a b : HubEvt) : Prop := kLt (keyOf a) (keyOf b)

instance (a b : HubEvt) : Decidable (keyLt a b) := by
  unfold keyLt; infer_instance

/-- All ordering keys of the log are pairwise distinct. -/
def keysUnique (l : List HubEvt) : Prop :=
  l.Pairwise (fun a b => keyOf a ≠ keyOf b)

instance (l : List HubEvt) : Decidable (keysUnique l) := by
  unfold keysUnique; infer_instance

/-- A decoded spoke-pool `EnabledDepositRoute` event: ethers metadata plus
the args read by `SpokePoolUtils`. -/
structure SpokeEvt where
  blockNumber : Nat
  transactionIndex : Nat
  logIndex : Nat
  transactionHash : String
  destinationChainId : Nat
  originToken : String
  enabled : Bool
  deriving DecidableEq, Repr

/-- Lookup in a JS-object-like association list (first matching key). -/
def lookupA {α β : Type} [DecidableEq α] : List (α × β) → α → Option β
  | [], _ => none
  | (a, b) :: t, k => if a = k then some b else lookupA t k

/-- JS object key assignment: overwrite in place if the key exists,
otherwise append the new key in insertion order. -/
def setA {α β : Type} [DecidableEq α] : List (α × β) → α → β → List (α × β)
  | [], k, v => [(k, v)]
  | (a, b) :: t, k, v => if a = k then (a, v) :: t else (a, b) :: setA t k v

/-- JS `delete obj[k]`: drop every pair whose key is `k` (the source's
tables hold each key at most once, so this is exactly the JS delete). -/
def eraseA {α β : Type} [DecidableEq α] : List (α × β) → α → List (α × β)
  | [], _ => []
  | (a, b) :: t, k => if a = k then eraseA t k else (a, b) :: eraseA t k

/-- JS `Set.prototype.add`: append if absent, keep insertion order. -/
def addTok (ts : List String) (t : String) : List String :=
  if t ∈ ts then ts else ts ++ [t]

/-- JS `Set.prototype.delete`: remove the element if present (a JS set holds
each element at most once, so dropping every occurrence is exactly it). -/
def removeTok : List String → String → List String
  | [], _ => []
  | u :: ts, t => if u = t then removeTok ts t else u :: removeTok ts t

/-- The `if (!result[k]) result[k] = new Set()` guard of `routesEnabled`:
create the key with an empty set when it is absent (a `Set` value is always
truthy, so presence is exactly `isSome`). -/
def ensureKey (table : List (Nat × List String)) (k : Nat) : List (Nat × List String) :=
  if (lookupA table k).isSome then table else table ++ [(k, [])]

/-- One step of the `routesEnabled` reduce: create the destination-chain key
with an empty set if absent, then add or delete `originToken` on that key's
set according to the `enabled` flag. -/
def routesStep (table : List (Nat × List String)) (e : SpokeEvt) : List (Nat × List String) :=
  setA (ensureKey table e.destinationChainId) e.destinationChainId
    (if e.enabled then
      addTok ((lookupA (ensureKey table e.destinationChainId) e.destinationChainId).getD [])
        e.originToken
    else
      removeTok ((lookupA (ensureKey table e.destinationChainId) e.destinationChainId).getD [])
        e.originToken)

/-- `SpokePoolUtils.routesEnabled`: fold the stored log into the mapping
destination chain id to list of enabled origin tokens. -/
def routesEnabled (evs : List SpokeEvt) : List (Nat × List String) :=
  evs.foldl routesStep []

/-- Union of the token lists of a route-enablement table, deduplicated in
insertion order (the `Set` accumulation of `getSupportedTokens`). -/
def tokensFromTable (table : List (Nat × List String)) : List String :=
  table.foldl (fun acc p => p.2.foldl addTok acc) []

/-- `SpokePoolUtils.getSupportedTokens`. -/
def getSupportedTokens (evs : List SpokeEvt) : List String :=
  tokensFromTable (routesEnabled evs)

/-- `SpokePoolUtils.getSupportedChains`: the destination-chain keys. -/
def getSupportedChains (evs : List SpokeEvt) : List Nat :=
  (routesEnabled evs).map Prod.fst

/-- Mutable state of a `SpokePoolUtils` instance. -/
structure SpokeState where
  events : List SpokeEvt
  wrappedNativeToken : Option String
  deriving DecidableEq, Repr

/-- The hardcoded fallback used when `contract.wrappedNativeToken()` throws. -/
def fallbackWrappedNative : String := "0x4200000000000000000000000000000000000006"

/-- `SpokePoolUtils.update`: store the fetched events, then try the contract's
`wrappedNativeToken()` accessor, substituting the hardcoded fallback if the
read fails.  Both fields of the state are overwritten, so the result depends
only on the fetched log and the outcome of the read; the update itself never
fails. -/
def spokeUpdate (fetched : List SpokeEvt) (wntRead : Except String String) : SpokeState :=
  { events := fetched,
    wrappedNativeToken :=
      some (match wntRead with
        | .ok a => a
        | .error _ => fallbackWrappedNative) }

/-- Mutable state of a `HubPoolUtils` instance. -/
structure HubState where
  events : List HubEvt
  wethAddress : Option String
  deriving DecidableEq, Repr

/-- The field initializers of `HubPoolUtils`: empty log, weth address unset. -/
def HubState.init : HubState := { events := [], wethAddress := none }

/-- `HubPoolUtils.getWethAddress`: `assert(this.wethAddress, "weth address not
set")` fails on any falsy value, i.e. both on `undefined` and on the empty
string. -/
def getWethAddress (s : HubState) : Except String String :=
  match s.wethAddress with
  | some a => if a = "" then .error "weth address not set" else .ok a
  | none => .error "weth address not set"

/-- `HubPoolUtils.update`: run `fetchEvents()` (which can fail with the
duplicate-event error), then unconditionally read `contract.weth()`; a
failure of that read propagates. -/
def hubUpdate (l1 l2 l3 l4 l5 : List HubEvt) (wethRead : Except String String) :
    Except String HubState :=
  (hubFetchEvents l1 l2 l3 l4 l5).bind (fun evs =>
    wethRead.map (fun w => { events := evs, wethAddress := some w }))

/-- `HubPoolUtils.getSpokePoolAddresses`: fold `CrossChainContractsSet`
events, last write per chain id wins. -/
def getSpokePoolAddresses (evs : List HubEvt) : List (Nat × String) :=
  evs.foldl (fun res e =>
    match e.args with
    | .crossChainContractsSet l2ChainId spokePool => setA res l2ChainId spokePool
    | _ => res) []

/-- One step of the `getL1LpTokenTable` reduce: enable writes the pair,
disable deletes the key entirely, other event kinds are ignored. -/
def l1LpStep (res : List (String × String)) (e : HubEvt) : List (String × String) :=
  match e.args with
  | .l1TokenEnabledForLiquidityProvision l1Token lpToken => setA res l1Token lpToken
  | .l2TokenDisabledForLiquidityProvision l1Token => eraseA res l1Token
  | _ => res

/-- `HubPoolUtils.getL1LpTokenTable`: fold the log with `l1LpStep`. -/
def getL1LpTokenTable (evs : List HubEvt) : List (String × String) :=
  evs.foldl l1LpStep []

/-- `HubPoolUtils.getL1Tokens`: the keys of the L1/LP table. -/
def getL1Tokens (evs : List HubEvt) : List String :=
  (getL1LpTokenTable evs).map Prod.fst

/-- `HubPoolUtils.getLpTokens`: the values of the L1/LP table. -/
def getLpTokens (evs : List HubEvt) : List String :=
  (getL1LpTokenTable evs).map Prod.snd

/-- `HubPoolUtils.getSpokeTokenTable`: fold `SetPoolRebalanceRoute` events
into the mapping destination token to L1 token, last write wins. -/
def getSpokeTokenTable (evs : List HubEvt) : List (String × String) :=
  evs.foldl (fun res e =>
    match e.args with
    | .setPoolRebalanceRoute _ l1Token destinationToken => setA res destinationToken l1Token
    | _ => res) []

/-- `HubPoolUtils.getRoutes`: fold `SetEnableDepositRoute` events into the
nested mapping origin chain, destination chain, origin token to the enabled
flag, last write wins per key path. -/
def getRoutes (evs : List HubEvt) :
    List (Nat × List (Nat × List (String × Bool))) :=
  evs.foldl (fun res e =>
    match e.args with
    | .setEnableDepositRoute oc dc tok en =>
      let t1 := (lookupA res oc).getD []
      let t2 := (lookupA t1 dc).getD []
      setA res oc (setA t1 dc (setA t2 tok en))
    | _ => res) []

/-- The output record of `fetchRoutes`.  `fromTokenSymbol` and
`l1TokenAddress` are JS object lookups that may be `undefined`, modelled as
`Option`. -/
structure Route where
  fromChain : Nat
  toChain : Nat
  fromTokenAddress : String
  fromSpokeAddress : String
  fromTokenSymbol : Option String
  isNative : Bool
  l1TokenAddress : Option String
  deriving DecidableEq, Repr

/-- The per-spoke data gathered by `fetchRoutes` before the join: the spoke's
chain and address, its `routesEnabled()` table, the resolved ERC-20 symbol
table and its wrapped-native-token address. -/
structure SpokeData where
  fromChain : Nat
  fromSpokeAddress : String
  routes : List (Nat × List String)
  symbols : List (String × String)
  wrappedNativeToken : String
  deriving DecidableEq, Repr

/-- Concatenation of the images of `f`, the shape of the nested `forEach`
pushes of the join. -/
def cMap {α β : Type} (f : α → List β) : List α → List β
  | [] => []
  | x :: xs => f x ++ cMap f xs

/-- The innermost body of the `fetchRoutes` join: one base route per enabled
token, plus the synthesized native duplicate when the token equals the
spoke's wrapped-native-token address.  `nativeSym` is the chain
configuration's `nativeCurrencySymbol` lookup. -/
def routesForToken (spokeTokenTable : List (String × String)) (nativeSym : Nat → String)
    (sd : SpokeData) (toChain : Nat) (tok : String) : List Route :=
  let base : Route :=
    { fromChain := sd.fromChain
      toChain := toChain
      fromTokenAddress := tok
      fromSpokeAddress := sd.fromSpokeAddress
      fromTokenSymbol := lookupA sd.symbols tok
      isNative := false
      l1TokenAddress := lookupA spokeTokenTable tok }
  if tok = sd.wrappedNativeToken then
    [base, { base with fromTokenSymbol := some (nativeSym sd.fromChain), isNative := true }]
  else
    [base]

/-- Routes pushed for one `(toChain, fromTokenAddresses)` entry of a spoke's
enabled-route table. -/
def entryRoutes (spokeTokenTable : List (String × String)) (nativeSym : Nat → String)
    (sd : SpokeData) (p : Nat × List String) : List Route :=
  cMap (routesForToken spokeTokenTable nativeSym sd p.1) p.2

/-- Routes pushed for one spoke in the `spokeData.forEach` loop. -/
def spokeRoutes (spokeTokenTable : List (String × String)) (nativeSym : Nat → String)
    (sd : SpokeData) : List Route :=
  cMap (entryRoutes spokeTokenTable nativeSym sd) sd.routes

/-- The whole join of `fetchRoutes` (lines 409-437 of the source): the
`allRoutes` list after all pushes. -/
def buildRoutes (spokeTokenTable : List (String × String)) (nativeSym : Nat → String)
    (spokeData : List SpokeData) : List Route :=
  cMap (spokeRoutes spokeTokenTable nativeSym) spokeData

/-- Selects the routes emitted for one enabled `(fromChain, toChain,
fromTokenAddress)` triple of the join. -/
def tripleMatch (c : Nat) (t : Nat) (a : String) : Route → Bool :=
  fun r => decide (r.fromChain = c ∧ r.toChain = t ∧ r.fromTokenAddress = a)

/-- The six event kinds queried by the two stores. -/
inductive EvtKind where
  | l1TokenEnabledForLiquidityProvision
  | l2TokenDisabledForLiquidityProvision
  | setEnableDepositRoute
  | crossChainContractsSet
  | setPoolRebalanceRoute
  | enabledDepositRoute
  deriving DecidableEq, Repr

/-- `HubPoolUtils.fetchEvents` computes `latestBlock = getBlockNumber() - 1`. -/
def hubLatestBlock (head : Int) : Int := head - 1

/-- `SpokePoolUtils.fetchEvents` uses `latestBlock = getBlockNumber()`. -/
def spokeLatestBlock (head : Int) : Int := head

/-- The queries issued by `HubPoolUtils.fetchEvents`, in source order: kind
and the `(startBlock, latestBlock)` range handed to `incrementalEvents`. -/
def hubQueryPlan (startBlock head : Int) : List (EvtKind × Int × Int) :=
  [(.l1TokenEnabledForLiquidityProvision, startBlock, hubLatestBlock head),
   (.l2TokenDisabledForLiquidityProvision, startBlock, hubLatestBlock head),
   (.setEnableDepositRoute, startBlock, hubLatestBlock head),
   (.crossChainContractsSet, startBlock, hubLatestBlock head),
   (.setPoolRebalanceRoute, startBlock, hubLatestBlock head)]

/-- The single query issued by `SpokePoolUtils.fetchEvents`. -/
def spokeQueryPlan (startBlock head : Int) : List (EvtKind × Int × Int) :=
  [(.enabledDepositRoute, startBlock, spokeLatestBlock head)]

/-- `routesEnabled()` as a method: it reads only the stored log. -/
def SpokeState.viewRoutesEnabled (s : SpokeState) : List (Nat × List String) :=
  routesEnabled s.events

/-- `getSupportedTokens()` as a method. -/
def SpokeState.viewSupportedTokens (s : SpokeState) : List String :=
  getSupportedTokens s.events

/-- `getSupportedChains()` as a method. -/
def SpokeState.viewSupportedChains (s : SpokeState) : List Nat :=
  getSupportedChains s.events

/-- `getSpokePoolAddresses()` as a method. -/
def HubState.viewSpokePoolAddresses (s : HubState) : List (Nat × String) :=
  getSpokePoolAddresses s.events

/-- `getL1LpTokenTable()` as a method. -/
def HubState.viewL1LpTokenTable (s : HubState) : List (String × String) :=
  getL1LpTokenTable s.events

/-- `getL1Tokens()` as a method. -/
def HubState.viewL1Tokens (s : HubState) : List String :=
  getL1Tokens s.events

/-- `getLpTokens()` as a method. -/
def HubState.viewLpTokens (s : HubState) : List String :=
  getLpTokens s.events

/-- `getSpokeTokenTable()` as a method. -/
def HubState.viewSpokeTokenTable (s : HubState) : List (String × String) :=
  getSpokeTokenTable s.events

/-- `getRoutes()` as a method. -/
def HubState.viewRoutes (s : HubState) : List (Nat × List (Nat × List (String × Bool))) :=
  getRoutes s.events

/-- Sample hub event in block 2 (fetched first, sorts last). -/
def evA : HubEvt := ⟨2, 0, 0, "0xa", .crossChainContractsSet 10 "0xspoke"⟩

/-- Sample hub event in block 1 (fetched second, sorts first). -/
def evB : HubEvt := ⟨1, 0, 0, "0xb", .setPoolRebalanceRoute 1 "0xl1" "0xd"⟩

/-- Sample hub event whose ordering key collides with `evC2`. -/
def evC1 : HubEvt := ⟨1, 0, 0, "0xc", .l1TokenEnabledForLiquidityProvision "0xX" "0xY"⟩

/-- Sample hub event whose ordering key collides with `evC1`. -/
def evC2 : HubEvt := ⟨1, 0, 0, "0xc", .l2TokenDisabledForLiquidityProvision "0xX"⟩

/-- Sample hub event enabling `0xX` for liquidity provision. -/
def evEn : HubEvt := ⟨1, 0, 0, "0xh1", .l1TokenEnabledForLiquidityProvision "0xX" "0xY"⟩

/-- Sample hub event disabling `0xX` for liquidity provision. -/
def evDis : HubEvt := ⟨1, 0, 1, "0xh2", .l2TokenDisabledForLiquidityProvision "0xX"⟩

/-- Sample spoke log: one enable of token `0xT` towards chain 5. -/
def spokeSampleEvents : List SpokeEvt := [⟨1, 0, 0, "0xh", 5, "0xT", true⟩]

/-- Sample spoke store state with the wrapped-native-token field unset. -/
def sSpokeA : SpokeState := { events := spokeSampleEvents, wrappedNativeToken := none }

/-- Sample spoke store state, same log as `sSpokeA`, different other field. -/
def sSpokeB : SpokeState := { events := spokeSampleEvents, wrappedNativeToken := some "0xW" }

/-- Sample hub store state with the weth field unset. -/
def sHubA : HubState := { events := [evB], wethAddress := none }

/-- Sample hub store state, same log as `sHubA`, different other field. -/
def sHubB : HubState := { events := [evB], wethAddress := some "0xweth" }

/-- Sample spoke join data: wrapped-native token `0xW` and one destination
chain with two enabled tokens. -/
def sdSample : SpokeData :=
  { fromChain := 10
    fromSpokeAddress := "0xS"
    routes := [(1, ["0xW", "0xT"])]
    symbols := [("0xW", "WETH"), ("0xT", "TOK")]
    wrappedNativeToken := "0xW" }

/-- Sample hub spoke-token table mapping only `0xW`. -/
def tableSample : List (String × String) := [("0xW", "0xL1W")]

/-- Sample spoke event disabling token `0xA` towards chain 7 (on a log with
no enable, so the destination ends the fold with no enabled tokens). -/
def spokeDisEvent : SpokeEvt := ⟨1, 0, 0, "0xh", 7, "0xA", false⟩

theorem kLt_trans {p q r : Nat × Nat × Nat} (h1 : kLt p q) (h2 : kLt q r) : kLt p r := by
  unfold kLt at *
  omega

theorem kLt_irrefl (p : Nat × Nat × Nat) : ¬ kLt p p := by
  unfold kLt
  omega

theorem cmpEvt_lt_iff (a b : HubEvt) : cmpEvt a b = Ordering.lt ↔ keyLt a b := by
  unfold cmpEvt keyLt kLt keyOf
  split_ifs <;> simp_all

theorem cmpEvt_eq_iff (a b : HubEvt) : cmpEvt a b = Ordering.eq ↔ keyOf a = keyOf b := by
  unfold cmpEvt keyOf
  split_ifs <;> simp_all [Prod.ext_iff]

theorem cmpEvt_gt_iff (a b : HubEvt) : cmpEvt a b = Ordering.gt ↔ keyLt b a := by
  unfold cmpEvt keyLt kLt keyOf
  split_ifs <;> simp_all <;> omega

theorem insertEvt_ok_perm (x : HubEvt) :
    ∀ {ys m : List HubEvt}, insertEvt x ys = .ok m → List.Perm m (x :: ys) := by
  intro ys
  induction ys with
  | nil =>
    intro m h
    simp [insertEvt] at h
    subst h
    exact List.Perm.refl _
  | cons y ys ih =>
    intro m h
    cases hc : cmpEvt x y
    · simp only [insertEvt, hc] at h
      cases h
      exact List.Perm.refl _
    · simp only [insertEvt, hc] at h
      cases h
    · simp only [insertEvt, hc] at h
      cases him : insertEvt x ys with
      | error e => rw [him] at h; simp [Except.map] at h
      | ok m' =>
        rw [him] at h
        simp [Except.map] at h
        subst h
        exact ((ih him).cons y).trans (List.Perm.swap x y ys)

theorem insertEvt_ok_of_fresh (x : HubEvt) :
    ∀ (ys : List HubEvt), (∀ y ∈ ys, keyOf x ≠ keyOf y) → ∃ m, insertEvt x ys = .ok m := by
  intro ys
  induction ys with
  | nil => exact fun _ => ⟨[x], rfl⟩
  | cons y ys ih =>
    intro h
    cases hc : cmpEvt x y
    · exact ⟨x :: y :: ys, by simp [insertEvt, hc]⟩
    · exact absurd ((cmpEvt_eq_iff x y).mp hc) (h y (List.mem_cons_self y ys))
    · obtain ⟨m, hm⟩ := ih (fun z hz => h z (List.mem_cons_of_mem y hz))
      exact ⟨y :: m, by simp [insertEvt, hc, hm, Except.map]⟩

theorem insertEvt_sorted (x : HubEvt) :
    ∀ {ys m : List HubEvt}, ys.Pairwise keyLt → insertEvt x ys = .ok m →
      m.Pairwise keyLt := by
  intro ys
  induction ys with
  | nil =>
    intro m _ h
    simp [insertEvt] at h
    subst h
    exact List.pairwise_singleton _ _
  | cons y ys ih =>
    intro m hs h
    cases hc : cmpEvt x y
    · simp only [insertEvt, hc] at h
      cases h
      refine List.pairwise_cons.mpr ⟨?_, hs⟩
      intro z hz
      rcases List.mem_cons.mp hz with rfl | hz
      · exact (cmpEvt_lt_iff x z).mp hc
      · exact kLt_trans ((cmpEvt_lt_iff x y).mp hc) ((List.pairwise_cons.mp hs).1 z hz)
    · simp only [insertEvt, hc] at h
      cases h
    · simp only [insertEvt, hc] at h
      cases him : insertEvt x ys with
      | error e => rw [him] at h; simp [Except.map] at h
      | ok m' =>
        rw [him] at h
        simp [Except.map] at h
        subst h
        refine List.pairwise_cons.mpr ⟨?_, ih (List.pairwise_cons.mp hs).2 him⟩
        intro z hz
        rcases List.mem_cons.mp ((insertEvt_ok_perm x him).mem_iff.mp hz) with hzx | hz
        · rw [hzx]
          exact (cmpEvt_gt_iff x y).mp hc
        · exact (List.pairwise_cons.mp hs).1 z hz

theorem insertEvt_err_of_tie (x : HubEvt) :
    ∀ (ys : List HubEvt), ys.Pairwise keyLt → (∃ y ∈ ys, keyOf y = keyOf x) →
      insertEvt x ys = .error (dupMsg x.transactionHash) := by
  intro ys
  induction ys with
  | nil =>
    rintro _ ⟨y, hy, _⟩
    cases hy
  | cons y ys ih =>
    rintro hs ⟨z, hz, hkey⟩
    rcases List.mem_cons.mp hz with hzy | hz
    · have hc : cmpEvt x y = .eq :=
        (cmpEvt_eq_iff x y).mpr (by rw [← hzy]; exact hkey.symm)
      simp [insertEvt, hc]
    · have hyz : kLt (keyOf y) (keyOf z) := (List.pairwise_cons.mp hs).1 z hz
      rw [hkey] at hyz
      have hc : cmpEvt x y = .gt := (cmpEvt_gt_iff x y).mpr hyz
      have hrec := ih (List.pairwise_cons.mp hs).2 ⟨z, hz, hkey⟩
      simp [insertEvt, hc, hrec, Except.map]

theorem sortEvts_ok_perm :
    ∀ {l m : List HubEvt}, sortEvts l = .ok m → List.Perm m l := by
  intro l
  induction l with
  | nil =>
    intro m h
    simp [sortEvts] at h
    subst h
    exact List.Perm.refl _
  | cons x xs ih =>
    intro m h
    simp only [sortEvts] at h
    cases hs : sortEvts xs with
    | error e => rw [hs] at h; simp [Except.bind] at h
    | ok m0 =>
      rw [hs] at h
      have h' : insertEvt x m0 = .ok m := h
      exact (insertEvt_ok_perm x h').trans ((ih hs).cons x)

theorem sortEvts_ok_sorted :
    ∀ {l m : List HubEvt}, sortEvts l = .ok m → m.Pairwise keyLt := by
  intro l
  induction l with
  | nil =>
    intro m h
    simp [sortEvts] at h
    subst h
    exact List.Pairwise.nil
  | cons x xs ih =>
    intro m h
    simp only [sortEvts] at h
    cases hs : sortEvts xs with
    | error e => rw [hs] at h; simp [Except.bind] at h
    | ok m0 =>
      rw [hs] at h
      exact insertEvt_sorted x (ih hs) h

theorem sortEvts_ok_of_unique :
    ∀ (l : List HubEvt), keysUnique l → ∃ m, sortEvts l = .ok m := by
  intro l
  induction l with
  | nil => exact fun _ => ⟨[], rfl⟩
  | cons x xs ih =>
    intro h
    have h' := List.pairwise_cons.mp h
    obtain ⟨m0, hm0⟩ := ih h'.2
    have hfresh : ∀ y ∈ m0, keyOf x ≠ keyOf y :=
      fun y hy => h'.1 y ((sortEvts_ok_perm hm0).mem_iff.mp hy)
    obtain ⟨m, hm⟩ := insertEvt_ok_of_fresh x m0 hfresh
    refine ⟨m, ?_⟩
    simp only [sortEvts]
    rw [hm0]
    exact hm

theorem sortEvts_err_of_dup :
    ∀ (l : List HubEvt), ¬ keysUnique l →
      ∃ e ∈ l, 2 ≤ l.countP (fun e2 => decide (keyOf e2 = keyOf e)) ∧
        sortEvts l = .error (dupMsg e.transactionHash) := by
  intro l
  induction l with
  | nil => exact fun h => absurd List.Pairwise.nil h
  | cons x xs ih =>
    intro h
    by_cases hxs : keysUnique xs
    · have htie : ∃ y ∈ xs, keyOf x = keyOf y := by
        by_contra hc
        push_neg at hc
        exact h (List.pairwise_cons.mpr ⟨hc, hxs⟩)
      obtain ⟨y, hy, hkey⟩ := htie
      obtain ⟨m, hm⟩ := sortEvts_ok_of_unique xs hxs
      have herr := insertEvt_err_of_tie x m (sortEvts_ok_sorted hm)
        ⟨y, (sortEvts_ok_perm hm).mem_iff.mpr hy, hkey.symm⟩
      refine ⟨x, List.mem_cons_self x xs, ?_, ?_⟩
      · have h1 : 0 < xs.countP (fun e2 => decide (keyOf e2 = keyOf x)) :=
          List.countP_pos_iff.mpr ⟨y, hy, by simp [hkey]⟩
        have h2 : (x :: xs).countP (fun e2 => decide (keyOf e2 = keyOf x)) =
            xs.countP (fun e2 => decide (keyOf e2 = keyOf x)) + 1 := by
          rw [List.countP_cons]
          simp
        omega
      · simp only [sortEvts]
        rw [hm]
        exact herr
    · obtain ⟨e, he, hcnt, herr⟩ := ih hxs
      refine ⟨e, List.mem_cons_of_mem x he, ?_, ?_⟩
      · rw [List.countP_cons]
        omega
      · simp only [sortEvts]
        rw [herr]
        rfl

theorem sortEvts_canonical {l l' m m' : List HubEvt} (hp : List.Perm l' l)
    (h1 : sortEvts l = .ok m) (h2 : sortEvts l' = .ok m') : m' = m := by
  haveI : IsAntisymm HubEvt keyLt :=
    ⟨fun a b hab hba => (kLt_irrefl _ (kLt_trans hab hba)).elim⟩
  exact List.eq_of_perm_of_sorted
    (((sortEvts_ok_perm h2).trans hp).trans (sortEvts_ok_perm h1).symm)
    (sortEvts_ok_sorted h2) (sortEvts_ok_sorted h1)

/-- C1: `HubPoolUtils.fetchEvents` concatenates the five per-event-kind
result sequences and globally sorts the combination by the ordering key
`(blockNumber, transactionIndex, logIndex)`.  When the combined log has
pairwise-distinct ordering keys the result is the sorted permutation of the
input, and every permutation of the combined log (any per-kind fetch order)
sorts to the same output; when two events tie on all three fields the fold
fails with the duplicate-event error naming the offending transaction
hash. -/
theorem hubFetchEvents_sorts_or_dup_error (l1 l2 l3 l4 l5 : List HubEvt) :
    (keysUnique (l1 ++ l2 ++ l3 ++ l4 ++ l5) →
      ∃ m, hubFetchEvents l1 l2 l3 l4 l5 = .ok m ∧
        List.Perm m (l1 ++ l2 ++ l3 ++ l4 ++ l5) ∧ m.Pairwise keyLt ∧
        ∀ l', List.Perm l' (l1 ++ l2 ++ l3 ++ l4 ++ l5) → sortEvts l' = .ok m) ∧
    (¬ keysUnique (l1 ++ l2 ++ l3 ++ l4 ++ l5) →
      ∃ e ∈ l1 ++ l2 ++ l3 ++ l4 ++ l5,
        2 ≤ (l1 ++ l2 ++ l3 ++ l4 ++ l5).countP (fun e2 => decide (keyOf e2 = keyOf e)) ∧
        hubFetchEvents l1 l2 l3 l4 l5 = .error (dupMsg e.transactionHash)) := by
  constructor
  · intro hu
    obtain ⟨m, hm⟩ := sortEvts_ok_of_unique _ hu
    refine ⟨m, hm, sortEvts_ok_perm hm, sortEvts_ok_sorted hm, ?_⟩
    intro l' hl'
    have hu' : keysUnique l' :=
      (List.Perm.pairwise_iff (fun h => Ne.symm h) hl').mpr hu
    obtain ⟨m', hm'⟩ := sortEvts_ok_of_unique _ hu'
    rw [hm', sortEvts_canonical hl' hm hm']
  · intro hd
    exact sortEvts_err_of_dup _ hd

/-- Witness for C1: a two-event log (one event per kind, fetched out of block
order) sorts into block order, and a log with a full ordering-key tie fails
with the duplicate-event error. -/
theorem hubFetchEvents_sorts_or_dup_error_witness :
    (∃ m, hubFetchEvents [evA] [evB] [] [] [] = .ok m ∧
        List.Perm m ([evA] ++ [evB] ++ [] ++ [] ++ []) ∧
        m.Pairwise keyLt ∧
        ∀ l', List.Perm l' ([evA] ++ [evB] ++ [] ++ [] ++ []) → sortEvts l' = .ok m) ∧
    (∃ e ∈ [evC1] ++ [evC2] ++ [] ++ [] ++ [],
      2 ≤ ([evC1] ++ [evC2] ++ [] ++ [] ++ []).countP
          (fun e2 => decide (keyOf e2 = keyOf e)) ∧
      hubFetchEvents [evC1] [evC2] [] [] [] = .error (dupMsg e.transactionHash)) :=
  ⟨(hubFetchEvents_sorts_or_dup_error [evA] [evB] [] [] []).1 (by decide),
   (hubFetchEvents_sorts_or_dup_error [evC1] [evC2] [] [] []).2 (by decide)⟩

/-- C2: the route-enablement fold is order-dependent.  Replaying
`[enable (d, A), disable (d, A)]` leaves `A` absent from destination `d`'s
token list (the list is empty), while replaying `[disable (d, A),
enable (d, A)]` — the disable being a membership no-op on the fresh empty
set — leaves `A` present, whatever the event metadata. -/
theorem routesEnabled_order_dependent (d : Nat) (A : String)
    (b1 t1 i1 : Nat) (h1 : String) (b2 t2 i2 : Nat) (h2 : String) :
    lookupA (routesEnabled [⟨b1, t1, i1, h1, d, A, true⟩, ⟨b2, t2, i2, h2, d, A, false⟩]) d
        = some [] ∧
    lookupA (routesEnabled [⟨b1, t1, i1, h1, d, A, false⟩, ⟨b2, t2, i2, h2, d, A, true⟩]) d
        = some [A] := by
  constructor <;>
    simp [routesEnabled, routesStep, ensureKey, lookupA, setA, addTok, removeTok]

/-- C4: `SpokePoolUtils.update` stores the fetched events and then reads the
contract's wrapped-native-token address; a failing read is not propagated
but replaced by the hardcoded fallback constant
`0x4200000000000000000000000000000000000006`, while a successful read stores
exactly the returned value.  `spokeUpdate` is a total function: no failure
escapes it. -/
theorem spokeUpdate_fallback (fetched : List SpokeEvt) (msg a : String) :
    (spokeUpdate fetched (.error msg)).wrappedNativeToken
        = some "0x4200000000000000000000000000000000000006" ∧
    (spokeUpdate fetched (.ok a)).wrappedNativeToken = some a ∧
    (spokeUpdate fetched (.error msg)).events = fetched ∧
    (spokeUpdate fetched (.ok a)).events = fetched :=
  ⟨rfl, rfl, rfl, rfl⟩

/-- C8: `HubPoolUtils.fetchEvents` queries its five event kinds over
`[startBlock, head - 1]` (one block behind the provider's current block
number), while `SpokePoolUtils.fetchEvents` queries its single kind over
`[startBlock, head]` with the exact head. -/
theorem fetch_ranges_hub_lag_spoke_exact (startBlock head : Int) :
    hubQueryPlan startBlock head =
      [(.l1TokenEnabledForLiquidityProvision, startBlock, head - 1),
       (.l2TokenDisabledForLiquidityProvision, startBlock, head - 1),
       (.setEnableDepositRoute, startBlock, head - 1),
       (.crossChainContractsSet, startBlock, head - 1),
       (.setPoolRebalanceRoute, startBlock, head - 1)] ∧
    spokeQueryPlan startBlock head = [(.enabledDepositRoute, startBlock, head)] :=
  ⟨rfl, rfl⟩

/-- C7 (amended): `getWethAddress` fails with the precondition error before
any successful `update()`; `update()` reads the weth address unconditionally
after fetching events and a failure of that read propagates; after a
successful `update()` whose read reported a nonempty address,
`getWethAddress` returns that address.  (The empty-string report is carved
out: Node's `assert` treats it as falsy, see the counterexample.) -/
theorem hub_weth_lifecycle (l1 l2 l3 l4 l5 : List HubEvt) (evs : List HubEvt)
    (w err : String) (hfetch : hubFetchEvents l1 l2 l3 l4 l5 = .ok evs) :
    getWethAddress HubState.init = .error "weth address not set" ∧
    hubUpdate l1 l2 l3 l4 l5 (.error err) = .error err ∧
    hubUpdate l1 l2 l3 l4 l5 (.ok w) = .ok { events := evs, wethAddress := some w } ∧
    (w ≠ "" → getWethAddress { events := evs, wethAddress := some w } = .ok w) := by
  refine ⟨rfl, ?_, ?_, ?_⟩
  · simp only [hubUpdate, hfetch]
    rfl
  · simp only [hubUpdate, hfetch]
    rfl
  · intro hw
    simp [getWethAddress, hw]

/-- Witness for C7 at concrete inputs. -/
theorem hub_weth_lifecycle_witness :
    getWethAddress HubState.init = .error "weth address not set" ∧
    hubUpdate [evA] [evB] [] [] [] (.error "boom") = .error "boom" ∧
    hubUpdate [evA] [evB] [] [] [] (.ok "0xweth") =
      .ok { events := [evB, evA], wethAddress := some "0xweth" } ∧
    ("0xweth" ≠ "" →
      getWethAddress { events := [evB, evA], wethAddress := some "0xweth" } = .ok "0xweth") :=
  hub_weth_lifecycle [evA] [evB] [] [] [] [evB, evA] "0xweth" "boom" (by rfl)

/-- Counterexample to C7 as stated: an execution in which the contract
reports the empty string.  `update()` succeeds and stores the reported
value, but `getWethAddress()` then fails with the precondition error instead
of returning the reported address, because `assert(this.wethAddress, ...)`
treats the empty string as falsy. -/
theorem hub_weth_empty_string_counterexample :
    hubUpdate [] [] [] [] [] (.ok "") =
      .ok { events := [], wethAddress := some "" } ∧
    getWethAddress { events := [], wethAddress := some "" } =
      .error "weth address not set" ∧
    getWethAddress { events := [], wethAddress := some "" } ≠ .ok "" := by
  refine ⟨rfl, by simp [getWethAddress], by simp [getWethAddress]⟩

theorem lookupA_setA_self {α β : Type} [DecidableEq α] :
    ∀ (l : List (α × β)) (k : α) (v : β), lookupA (setA l k v) k = some v := by
  intro l k v
  induction l with
  | nil => simp [setA, lookupA]
  | cons p t ih =>
    obtain ⟨a, b⟩ := p
    by_cases h : a = k
    · simp [setA, lookupA, h]
    · simp [setA, lookupA, h, ih]

theorem lookupA_setA_ne {α β : Type} [DecidableEq α] (k' : α) :
    ∀ (l : List (α × β)) (k : α) (v : β), k' ≠ k →
      lookupA (setA l k v) k' = lookupA l k' := by
  intro l
  induction l with
  | nil =>
    intro k v h
    simp [setA, lookupA, Ne.symm h]
  | cons p t ih =>
    intro k v h
    obtain ⟨a, b⟩ := p
    by_cases ha : a = k
    · subst ha
      simp [setA, lookupA, Ne.symm h]
    · simp [setA, lookupA, ha, ih k v h]

theorem lookupA_eraseA_self {α β : Type} [DecidableEq α] :
    ∀ (l : List (α × β)) (k : α), lookupA (eraseA l k) k = none := by
  intro l k
  induction l with
  | nil => rfl
  | cons p t ih =>
    obtain ⟨a, b⟩ := p
    by_cases h : a = k
    · simp [eraseA, h]
      exact ih
    · simp [eraseA, h, lookupA]
      exact ih

theorem lookupA_eraseA_ne {α β : Type} [DecidableEq α] (k' : α) :
    ∀ (l : List (α × β)) (k : α), k' ≠ k →
      lookupA (eraseA l k) k' = lookupA l k' := by
  intro l
  induction l with
  | nil => intro k _; rfl
  | cons p t ih =>
    intro k h
    obtain ⟨a, b⟩ := p
    by_cases ha : a = k
    · subst ha
      simp [eraseA, lookupA, Ne.symm h]
      exact ih a h
    · by_cases hak : a = k'
      · subst hak
        simp [eraseA, ha, lookupA]
      · simp [eraseA, ha, lookupA, hak]
        exact ih k h

theorem lookupA_append_of_none {α β : Type} [DecidableEq α] :
    ∀ (t t' : List (α × β)) (k : α), lookupA t k = none →
      lookupA (t ++ t') k = lookupA t' k := by
  intro t t' k
  induction t with
  | nil => intro _; rfl
  | cons p s ih =>
    intro h
    obtain ⟨a, b⟩ := p
    by_cases ha : a = k
    · simp [lookupA, ha] at h
    · simp only [List.cons_append, lookupA, if_neg ha] at h ⊢
      exact ih h

theorem lookupA_append_of_some {α β : Type} [DecidableEq α] {b0 : β} :
    ∀ (t t' : List (α × β)) (k : α), lookupA t k = some b0 →
      lookupA (t ++ t') k = some b0 := by
  intro t t' k
  induction t with
  | nil => intro h; cases h
  | cons p s ih =>
    intro h
    obtain ⟨a, b⟩ := p
    by_cases ha : a = k
    · simp only [lookupA, if_pos ha] at h
      simp only [List.cons_append, lookupA, if_pos ha]
      exact h
    · simp only [lookupA, if_neg ha] at h
      simp only [List.cons_append, lookupA, if_neg ha]
      exact ih h

theorem lookupA_none_iff {α β : Type} [DecidableEq α] :
    ∀ (l : List (α × β)) (k : α), lookupA l k = none ↔ k ∉ l.map Prod.fst := by
  intro l k
  induction l with
  | nil => simp [lookupA]
  | cons p t ih =>
    obtain ⟨a, b⟩ := p
    by_cases ha : a = k
    · simp [lookupA, ha]
    · simp only [lookupA, if_neg ha, List.map_cons, List.mem_cons]
      rw [ih]
      constructor
      · intro h hk
        rcases hk with hk | hk
        · exact ha hk.symm
        · exact h hk
      · intro h hk
        exact h (Or.inr hk)

theorem lookupA_of_mem_nodup {α β : Type} [DecidableEq α] {k : α} {v : β} :
    ∀ (l : List (α × β)), (l.map Prod.fst).Nodup → (k, v) ∈ l →
      lookupA l k = some v := by
  intro l
  induction l with
  | nil => intro _ hm; cases hm
  | cons p t ih =>
    intro hnd hm
    obtain ⟨a, b⟩ := p
    rcases List.mem_cons.mp hm with heq | hm'
    · cases heq
      simp [lookupA]
    · have ha : a ≠ k := by
        intro e
        have : k ∈ t.map Prod.fst :=
          List.mem_map.mpr ⟨(k, v), hm', rfl⟩
        rw [List.map_cons] at hnd
        exact (List.nodup_cons.mp hnd).1 (e ▸ this)
      simp [lookupA, ha]
      exact ih (by rw [List.map_cons] at hnd; exact (List.nodup_cons.mp hnd).2) hm'

theorem setA_map_fst_of_present {α β : Type} [DecidableEq α] {k : α} (v : β) :
    ∀ (l : List (α × β)), (lookupA l k).isSome →
      (setA l k v).map Prod.fst = l.map Prod.fst := by
  intro l
  induction l with
  | nil => intro h; simp [lookupA] at h
  | cons p t ih =>
    intro h
    obtain ⟨a, b⟩ := p
    by_cases ha : a = k
    · simp [setA, ha]
    · simp only [lookupA, if_neg ha] at h
      simp [setA, ha, ih h]

theorem mem_cMap {α β : Type} (f : α → List β) (b : β) :
    ∀ (l : List α), b ∈ cMap f l ↔ ∃ a ∈ l, b ∈ f a := by
  intro l
  induction l with
  | nil => simp [cMap]
  | cons x xs ih => simp [cMap, ih]

theorem filter_cMap {α β : Type} (f : α → List β) (p : β → Bool) :
    ∀ (l : List α), (cMap f l).filter p = cMap (fun a => (f a).filter p) l := by
  intro l
  induction l with
  | nil => rfl
  | cons x xs ih => simp [cMap, List.filter_append, ih]

theorem cMap_eq_nil {α β : Type} (f : α → List β) :
    ∀ (l : List α), (∀ a ∈ l, f a = []) → cMap f l = [] := by
  intro l
  induction l with
  | nil => intro _; rfl
  | cons x xs ih =>
    intro h
    rw [cMap, h x (List.mem_cons_self x xs), List.nil_append]
    exact ih (fun a ha => h a (List.mem_cons_of_mem x ha))

theorem filter_cMap_single {α β : Type} [DecidableEq α] (f : α → List β) (p : β → Bool) :
    ∀ (l : List α) (x : α), l.count x = 1 →
      (∀ y ∈ l, y ≠ x → (f y).filter p = []) →
      (cMap f l).filter p = (f x).filter p := by
  intro l
  induction l with
  | nil =>
    intro x hc _
    simp at hc
  | cons y ys ih =>
    intro x hc hothers
    rw [cMap, List.filter_append]
    by_cases hyx : y = x
    · subst hyx
      have hnotin : y ∉ ys := by
        rw [List.count_cons_self] at hc
        exact List.count_eq_zero.mp (by omega)
      have hrest : (cMap f ys).filter p = [] := by
        rw [filter_cMap]
        apply cMap_eq_nil
        intro a ha
        exact hothers a (List.mem_cons_of_mem y ha)
          (fun e => hnotin (e ▸ ha))
      rw [hrest, List.append_nil]
    · rw [hothers y (List.mem_cons_self y ys) hyx, List.nil_append]
      apply ih x _ (fun z hz => hothers z (List.mem_cons_of_mem y hz))
      rw [List.count_cons_of_ne (Ne.symm hyx)] at hc
      exact hc

theorem l1LpFold_preserves_absent (X : String) :
    ∀ (post : List HubEvt) (t : List (String × String)),
      (∀ f ∈ post, ∀ lp, f.args ≠ .l1TokenEnabledForLiquidityProvision X lp) →
      lookupA t X = none →
      lookupA (post.foldl l1LpStep t) X = none := by
  intro post
  induction post with
  | nil => exact fun t _ h => h
  | cons f fs ih =>
    intro t hno h
    rw [List.foldl_cons]
    apply ih _ (fun g hg => hno g (List.mem_cons_of_mem f hg))
    cases harg : f.args with
    | l1TokenEnabledForLiquidityProvision l1 lp =>
      have hne : X ≠ l1 := by
        intro e
        exact hno f (List.mem_cons_self f fs) lp (by rw [harg, ← e])
      rw [show l1LpStep t f = setA t l1 lp by rw [l1LpStep, harg]]
      rw [lookupA_setA_ne X t l1 lp hne]
      exact h
    | l2TokenDisabledForLiquidityProvision l1 =>
      rw [show l1LpStep t f = eraseA t l1 by rw [l1LpStep, harg]]
      by_cases hX : X = l1
      · rw [hX]
        exact lookupA_eraseA_self t l1
      · rw [lookupA_eraseA_ne X t l1 hX]
        exact h
    | setEnableDepositRoute oc dc tok en =>
      rw [show l1LpStep t f = t by rw [l1LpStep, harg]]
      exact h
    | crossChainContractsSet cid sp =>
      rw [show l1LpStep t f = t by rw [l1LpStep, harg]]
      exact h
    | setPoolRebalanceRoute dc l1 dt =>
      rw [show l1LpStep t f = t by rw [l1LpStep, harg]]
      exact h

/-- C6: when an `L1TokenEnabledForLiquidityProvision` for `l1Token = X` is
followed, in log order, by an `L2TokenDisabledForLiquidityProvision` for `X`
with no later enable of `X`, the folded L1/LP table has no entry at key `X`
(the key is removed, not tombstoned) and `getL1Tokens()` does not list
`X`. -/
theorem getL1LpTokenTable_disable_removes (pre post : List HubEvt) (X Y : String)
    (e d : HubEvt)
    (he : e.args = .l1TokenEnabledForLiquidityProvision X Y) (hepre : e ∈ pre)
    (hd : d.args = .l2TokenDisabledForLiquidityProvision X)
    (hpost : ∀ f ∈ post, ∀ lp, f.args ≠ .l1TokenEnabledForLiquidityProvision X lp) :
    lookupA (getL1LpTokenTable (pre ++ d :: post)) X = none ∧
    X ∉ getL1Tokens (pre ++ d :: post) := by
  have key : lookupA (getL1LpTokenTable (pre ++ d :: post)) X = none := by
    unfold getL1LpTokenTable
    rw [List.foldl_append, List.foldl_cons]
    apply l1LpFold_preserves_absent X post _ hpost
    rw [show l1LpStep (pre.foldl l1LpStep []) d = eraseA (pre.foldl l1LpStep []) X by
      rw [l1LpStep, hd]]
    exact lookupA_eraseA_self _ X
  exact ⟨key, fun hmem => (lookupA_none_iff _ _).mp key hmem⟩

/-- Witness for C6: enable `0xX` in block 1 log 0, disable it in block 1
log 1; the table has no `0xX` entry and `getL1Tokens` omits it. -/
theorem getL1LpTokenTable_disable_removes_witness :
    lookupA (getL1LpTokenTable ([evEn] ++ evDis :: [])) "0xX" = none ∧
    "0xX" ∉ getL1Tokens ([evEn] ++ evDis :: []) :=
  getL1LpTokenTable_disable_removes [evEn] [] "0xX" "0xY" evEn evDis rfl
    (List.mem_cons_self evEn []) rfl (fun f hf => absurd hf (List.not_mem_nil f))

/-- C9: every derived view of the spoke and hub stores is a pure function of
the stored event log: two states with the same log yield equal view results
(in particular, the non-log state fields are irrelevant), and no view
modifies the state — in this embedding views are functions of the state
value, so repeated calls without an intervening update agree
definitionally. -/
theorem derived_views_pure (s t : SpokeState) (hst : s.events = t.events)
    (u v : HubState) (huv : u.events = v.events) :
    s.viewRoutesEnabled = t.viewRoutesEnabled ∧
    s.viewSupportedTokens = t.viewSupportedTokens ∧
    s.viewSupportedChains = t.viewSupportedChains ∧
    u.viewSpokePoolAddresses = v.viewSpokePoolAddresses ∧
    u.viewL1LpTokenTable = v.viewL1LpTokenTable ∧
    u.viewL1Tokens = v.viewL1Tokens ∧
    u.viewLpTokens = v.viewLpTokens ∧
    u.viewSpokeTokenTable = v.viewSpokeTokenTable ∧
    u.viewRoutes = v.viewRoutes := by
  refine ⟨?_, ?_, ?_, ?_, ?_, ?_, ?_, ?_, ?_⟩ <;>
    simp [SpokeState.viewRoutesEnabled, SpokeState.viewSupportedTokens,
      SpokeState.viewSupportedChains, HubState.viewSpokePoolAddresses,
      HubState.viewL1LpTokenTable, HubState.viewL1Tokens, HubState.viewLpTokens,
      HubState.viewSpokeTokenTable, HubState.viewRoutes, hst, huv]

/-- Witness for C9: same logs, different non-log fields, equal views. -/
theorem derived_views_pure_witness :
    sSpokeA.viewRoutesEnabled = sSpokeB.viewRoutesEnabled ∧
    sSpokeA.viewSupportedTokens = sSpokeB.viewSupportedTokens ∧
    sSpokeA.viewSupportedChains = sSpokeB.viewSupportedChains ∧
    sHubA.viewSpokePoolAddresses = sHubB.viewSpokePoolAddresses ∧
    sHubA.viewL1LpTokenTable = sHubB.viewL1LpTokenTable ∧
    sHubA.viewL1Tokens = sHubB.viewL1Tokens ∧
    sHubA.viewLpTokens = sHubB.viewLpTokens ∧
    sHubA.viewSpokeTokenTable = sHubB.viewSpokeTokenTable ∧
    sHubA.viewRoutes = sHubB.viewRoutes :=
  derived_views_pure sSpokeA sSpokeB rfl sHubA sHubB rfl

theorem ensureKey_lookup_self (t : List (Nat × List String)) (k : Nat) :
    lookupA (ensureKey t k) k = some ((lookupA t k).getD []) := by
  unfold ensureKey
  cases h : lookupA t k with
  | some b => simp [h]
  | none =>
    simp only [h, Option.isSome_none, Bool.false_eq_true, if_false, Option.getD_none]
    rw [lookupA_append_of_none t _ k h]
    simp [lookupA]

theorem ensureKey_lookup_ne (t : List (Nat × List String)) (k k' : Nat) (h : k' ≠ k) :
    lookupA (ensureKey t k) k' = lookupA t k' := by
  unfold ensureKey
  by_cases hc : (lookupA t k).isSome
  · simp [hc]
  · rw [if_neg hc]
    cases h' : lookupA t k' with
    | some b => exact lookupA_append_of_some t _ k' h'
    | none =>
      rw [lookupA_append_of_none t _ k' h']
      simp [lookupA, Ne.symm h]

theorem routesStep_lookup_self (t : List (Nat × List String)) (e : SpokeEvt) :
    lookupA (routesStep t e) e.destinationChainId =
      some (if e.enabled then
          addTok ((lookupA (ensureKey t e.destinationChainId) e.destinationChainId).getD [])
            e.originToken
        else
          removeTok ((lookupA (ensureKey t e.destinationChainId) e.destinationChainId).getD [])
            e.originToken) := by
  unfold routesStep
  exact lookupA_setA_self _ _ _

theorem routesStep_lookup_ne (t : List (Nat × List String)) (e : SpokeEvt) (k : Nat)
    (h : k ≠ e.destinationChainId) :
    lookupA (routesStep t e) k = lookupA t k := by
  unfold routesStep
  rw [lookupA_setA_ne k _ _ _ h]
  exact ensureKey_lookup_ne t _ k h

theorem routesStep_isSome_self (t : List (Nat × List String)) (e : SpokeEvt) :
    (lookupA (routesStep t e) e.destinationChainId).isSome := by
  rw [routesStep_lookup_self]
  rfl

theorem routesStep_isSome_mono (t : List (Nat × List String)) (e : SpokeEvt) (k : Nat)
    (h : (lookupA t k).isSome) : (lookupA (routesStep t e) k).isSome := by
  by_cases hk : k = e.destinationChainId
  · rw [hk]
    exact routesStep_isSome_self t e
  · rw [routesStep_lookup_ne t e k hk]
    exact h

theorem routesFold_isSome_mono (k : Nat) :
    ∀ (evs : List SpokeEvt) (t : List (Nat × List String)),
      (lookupA t k).isSome → (lookupA (evs.foldl routesStep t) k).isSome := by
  intro evs
  induction evs with
  | nil => exact fun t h => h
  | cons f fs ih =>
    intro t h
    rw [List.foldl_cons]
    exact ih _ (routesStep_isSome_mono t f k h)

theorem routesEnabled_key_of_mem (evs : List SpokeEvt) (e : SpokeEvt) (h : e ∈ evs) :
    (lookupA (routesEnabled evs) e.destinationChainId).isSome := by
  obtain ⟨s, t2, rfl⟩ := List.append_of_mem h
  unfold routesEnabled
  rw [List.foldl_append, List.foldl_cons]
  exact routesFold_isSome_mono _ t2 _ (routesStep_isSome_self _ e)

theorem ensureKey_keys_nodup (t : List (Nat × List String)) (k : Nat)
    (h : (t.map Prod.fst).Nodup) : ((ensureKey t k).map Prod.fst).Nodup := by
  unfold ensureKey
  by_cases hc : (lookupA t k).isSome
  · simp [hc, h]
  · rw [if_neg hc, List.map_append]
    refine List.Nodup.append h (by simp) ?_
    have hnone : lookupA t k = none := Option.not_isSome_iff_eq_none.mp hc
    have hk : k ∉ t.map Prod.fst := (lookupA_none_iff t k).mp hnone
    intro x hx hxk
    simp only [List.map_cons, List.map_nil, List.mem_singleton] at hxk
    exact hk (hxk ▸ hx)

theorem routesStep_keys_nodup (t : List (Nat × List String)) (e : SpokeEvt)
    (h : (t.map Prod.fst).Nodup) : ((routesStep t e).map Prod.fst).Nodup := by
  unfold routesStep
  rw [setA_map_fst_of_present _ _ (by rw [ensureKey_lookup_self]; rfl)]
  exact ensureKey_keys_nodup t _ h

theorem routesFold_keys_nodup :
    ∀ (evs : List SpokeEvt) (t : List (Nat × List String)),
      (t.map Prod.fst).Nodup → (((evs.foldl routesStep t)).map Prod.fst).Nodup := by
  intro evs
  induction evs with
  | nil => exact fun t h => h
  | cons f fs ih =>
    intro t h
    rw [List.foldl_cons]
    exact ih _ (routesStep_keys_nodup t f h)

theorem routesEnabled_keys_nodup (evs : List SpokeEvt) :
    ((routesEnabled evs).map Prod.fst).Nodup :=
  routesFold_keys_nodup evs [] List.nodup_nil

theorem tokensFold_drop_key_empty (d : Nat) :
    ∀ (table : List (Nat × List String)) (acc : List String),
      (∀ p ∈ table, p.1 = d → p.2 = []) →
      table.foldl (fun acc p => p.2.foldl addTok acc) acc =
        (table.filter (fun p => decide (p.1 ≠ d))).foldl
          (fun acc p => p.2.foldl addTok acc) acc := by
  intro table
  induction table with
  | nil => intro acc _; rfl
  | cons p t ih =>
    intro acc h
    rw [List.foldl_cons, List.filter_cons]
    by_cases hd : p.1 = d
    · rw [h p (List.mem_cons_self p t) hd]
      simp only [hd, ne_eq, not_true_eq_false, decide_False, Bool.false_eq_true, if_false,
        List.foldl_nil]
      exact ih acc (fun q hq hqd => h q (List.mem_cons_of_mem p hq) hqd)
    · simp only [hd, ne_eq, not_false_eq_true, decide_True, if_true, List.foldl_cons]
      exact ih _ (fun q hq hqd => h q (List.mem_cons_of_mem p hq) hqd)

/-- C10: a disable event for `(d, A)` creates destination `d`'s key before
deleting from its set, so when destination `d` ends the fold with no enabled
tokens, `routesEnabled()` still maps `d` to the empty list,
`getSupportedChains()` includes `d`, and `getSupportedTokens()` is
unaffected: it equals the token union of the table with the `d` entry
dropped. -/
theorem routesEnabled_disable_creates_key (evs : List SpokeEvt) (d : Nat) (A : String)
    (e : SpokeEvt) (hmem : e ∈ evs) (hdest : e.destinationChainId = d)
    (htok : e.originToken = A) (hdis : e.enabled = false)
    (hempty : ∀ ts, lookupA (routesEnabled evs) d = some ts → ts = []) :
    lookupA (routesEnabled evs) d = some [] ∧
    d ∈ getSupportedChains evs ∧
    getSupportedTokens evs =
      tokensFromTable ((routesEnabled evs).filter (fun p => decide (p.1 ≠ d))) := by
  have hsome : (lookupA (routesEnabled evs) d).isSome := by
    rw [← hdest]
    exact routesEnabled_key_of_mem evs e hmem
  obtain ⟨ts, hts⟩ := Option.isSome_iff_exists.mp hsome
  have hts0 : ts = [] := hempty ts hts
  subst hts0
  refine ⟨hts, ?_, ?_⟩
  · by_contra hno
    have hnone : lookupA (routesEnabled evs) d = none := (lookupA_none_iff _ _).mpr hno
    rw [hnone] at hts
    cases hts
  · have hall : ∀ p ∈ routesEnabled evs, p.1 = d → p.2 = [] := by
      intro p hp hpd
      have hpair : (d, p.2) ∈ routesEnabled evs := by
        rw [← hpd]
        exact hp
      have := lookupA_of_mem_nodup (routesEnabled evs) (routesEnabled_keys_nodup evs) hpair
      rw [hts] at this
      exact (Option.some.inj this).symm
    exact tokensFold_drop_key_empty d (routesEnabled evs) [] hall

/-- Witness for C10: a log holding a single disable of `(7, 0xA)`. -/
theorem routesEnabled_disable_creates_key_witness :
    lookupA (routesEnabled [spokeDisEvent]) 7 = some [] ∧
    7 ∈ getSupportedChains [spokeDisEvent] ∧
    getSupportedTokens [spokeDisEvent] =
      tokensFromTable ((routesEnabled [spokeDisEvent]).filter (fun p => decide (p.1 ≠ 7))) :=
  routesEnabled_disable_creates_key [spokeDisEvent] 7 "0xA" spokeDisEvent
    (List.mem_cons_self _ _) rfl rfl rfl
    (by
      intro ts h
      rw [show lookupA (routesEnabled [spokeDisEvent]) 7 = some [] from rfl] at h
      exact (Option.some.inj h).symm)

theorem mem_routesForToken {table : List (String × String)} {nativeSym : Nat → String}
    {sd : SpokeData} {tc : Nat} {tok : String} {r : Route}
    (h : r ∈ routesForToken table nativeSym sd tc tok) :
    r.fromChain = sd.fromChain ∧ r.toChain = tc ∧ r.fromTokenAddress = tok ∧
    r.fromSpokeAddress = sd.fromSpokeAddress ∧
    r.l1TokenAddress = lookupA table tok := by
  simp only [routesForToken] at h
  by_cases hw : tok = sd.wrappedNativeToken
  · rw [if_pos hw] at h
    rcases List.mem_cons.mp h with rfl | h2
    · exact ⟨rfl, rfl, rfl, rfl, rfl⟩
    · rcases List.mem_cons.mp h2 with rfl | h3
      · exact ⟨rfl, rfl, rfl, rfl, rfl⟩
      · cases h3
  · rw [if_neg hw] at h
    rcases List.mem_cons.mp h with rfl | h2
    · exact ⟨rfl, rfl, rfl, rfl, rfl⟩
    · cases h2

theorem base_mem_routesForToken (table : List (String × String)) (nativeSym : Nat → String)
    (sd : SpokeData) (tc : Nat) (tok : String) :
    ({ fromChain := sd.fromChain, toChain := tc, fromTokenAddress := tok,
       fromSpokeAddress := sd.fromSpokeAddress, fromTokenSymbol := lookupA sd.symbols tok,
       isNative := false, l1TokenAddress := lookupA table tok } : Route) ∈
      routesForToken table nativeSym sd tc tok := by
  by_cases hw : tok = sd.wrappedNativeToken <;> simp [routesForToken, hw]

theorem mem_entryRoutes_fields {table : List (String × String)} {nativeSym : Nat → String}
    {sd : SpokeData} {pr : Nat × List String} {r : Route}
    (h : r ∈ entryRoutes table nativeSym sd pr) :
    r.fromChain = sd.fromChain ∧ r.toChain = pr.1 := by
  unfold entryRoutes at h
  obtain ⟨tok, _, h2⟩ := (mem_cMap _ r pr.2).mp h
  exact ⟨(mem_routesForToken h2).1, (mem_routesForToken h2).2.1⟩

theorem mem_spokeRoutes_fields {table : List (String × String)} {nativeSym : Nat → String}
    {sd : SpokeData} {r : Route} (h : r ∈ spokeRoutes table nativeSym sd) :
    r.fromChain = sd.fromChain := by
  unfold spokeRoutes at h
  obtain ⟨pr, _, h1⟩ := (mem_cMap _ r sd.routes).mp h
  exact (mem_entryRoutes_fields h1).1

theorem mem_buildRoutes {table : List (String × String)} {nativeSym : Nat → String}
    {sds : List SpokeData} {r : Route} (h : r ∈ buildRoutes table nativeSym sds) :
    ∃ sd ∈ sds, ∃ pr ∈ sd.routes, ∃ tok ∈ pr.2,
      r ∈ routesForToken table nativeSym sd pr.1 tok := by
  unfold buildRoutes at h
  obtain ⟨sd, hsd, h1⟩ := (mem_cMap _ r sds).mp h
  unfold spokeRoutes at h1
  obtain ⟨pr, hpr, h2⟩ := (mem_cMap _ r sd.routes).mp h1
  unfold entryRoutes at h2
  obtain ⟨tok, htok, h3⟩ := (mem_cMap _ r pr.2).mp h2
  exact ⟨sd, hsd, pr, hpr, tok, htok, h3⟩

/-- C5: a spoke token with no entry in the hub's spoke-token table still
yields its route records — the join raises no error (it is a total fold) —
and those records carry an absent (`none`) `l1TokenAddress`. -/
theorem join_missing_l1_mapping (table : List (String × String)) (nativeSym : Nat → String)
    (sds : List SpokeData) (sd : SpokeData) (tc : Nat) (toks : List String) (tok : String)
    (hsd : sd ∈ sds) (hent : (tc, toks) ∈ sd.routes) (htok : tok ∈ toks)
    (hmiss : lookupA table tok = none) :
    (∃ r ∈ buildRoutes table nativeSym sds,
        r.fromChain = sd.fromChain ∧ r.toChain = tc ∧ r.fromTokenAddress = tok ∧
        r.isNative = false ∧ r.l1TokenAddress = none) ∧
    (∀ r ∈ buildRoutes table nativeSym sds, r.fromTokenAddress = tok →
        r.l1TokenAddress = none) := by
  constructor
  · refine ⟨Route.mk sd.fromChain tc tok sd.fromSpokeAddress (lookupA sd.symbols tok)
        false (lookupA table tok), ?_, rfl, rfl, rfl, rfl, hmiss⟩
    unfold buildRoutes
    apply (mem_cMap _ _ sds).mpr
    refine ⟨sd, hsd, ?_⟩
    unfold spokeRoutes
    apply (mem_cMap _ _ sd.routes).mpr
    refine ⟨(tc, toks), hent, ?_⟩
    unfold entryRoutes
    apply (mem_cMap _ _ toks).mpr
    exact ⟨tok, htok, base_mem_routesForToken table nativeSym sd tc tok⟩
  · intro r hr hrtok
    obtain ⟨sd', _, pr', _, tok', _, h3⟩ := mem_buildRoutes hr
    obtain ⟨_, _, hta, _, hl1⟩ := mem_routesForToken h3
    have htt : tok' = tok := hta.symm.trans hrtok
    rw [hl1, htt, hmiss]

/-- Witness for C5: token `0xT` has no entry in the sample hub table, yet
its route is emitted with `l1TokenAddress = none`. -/
theorem join_missing_l1_mapping_witness :
    (∃ r ∈ buildRoutes tableSample (fun _ => "ETH") [sdSample],
        r.fromChain = sdSample.fromChain ∧ r.toChain = 1 ∧ r.fromTokenAddress = "0xT" ∧
        r.isNative = false ∧ r.l1TokenAddress = none) ∧
    (∀ r ∈ buildRoutes tableSample (fun _ => "ETH") [sdSample], r.fromTokenAddress = "0xT" →
        r.l1TokenAddress = none) :=
  join_missing_l1_mapping tableSample (fun _ => "ETH") [sdSample] sdSample 1
    ["0xW", "0xT"] "0xT" (List.mem_cons_self _ _) (by simp [sdSample]) (by simp)
    (by decide)

theorem tripleMatch_true_iff (c t : Nat) (a : String) (r : Route) :
    tripleMatch c t a r = true ↔
      (r.fromChain = c ∧ r.toChain = t ∧ r.fromTokenAddress = a) := by
  simp [tripleMatch]

/-- C3: in the join of `fetchRoutes`, an enabled `(fromChain, toChain,
token)` triple whose token equals the spoke's wrapped-native-token address
emits exactly two Route records — the base record and the synthesized native
record, which differ only in `isNative` (`false` vs `true`) and
`fromTokenSymbol` (the resolved ERC-20 symbol vs the chain's configured
native-currency symbol), all other fields identical — while a triple with
any other token emits exactly one record with `isNative = false`.  The
uniqueness hypotheses reflect the shape of the joined data: one spoke per
chain, one table entry per destination chain, set-deduplicated token
lists. -/
theorem join_native_synthesis (table : List (String × String)) (nativeSym : Nat → String)
    (sds : List SpokeData) (sd : SpokeData) (tc : Nat) (toks : List String) (tok : String)
    (hnd : (sds.map SpokeData.fromChain).Nodup) (hsd : sd ∈ sds)
    (hrnd : (sd.routes.map Prod.fst).Nodup) (hent : (tc, toks) ∈ sd.routes)
    (htnd : toks.Nodup) (htok : tok ∈ toks) :
    (buildRoutes table nativeSym sds).filter (tripleMatch sd.fromChain tc tok) =
      if tok = sd.wrappedNativeToken then
        [Route.mk sd.fromChain tc tok sd.fromSpokeAddress (lookupA sd.symbols tok) false
           (lookupA table tok),
         Route.mk sd.fromChain tc tok sd.fromSpokeAddress (some (nativeSym sd.fromChain)) true
           (lookupA table tok)]
      else
        [Route.mk sd.fromChain tc tok sd.fromSpokeAddress (lookupA sd.symbols tok) false
           (lookupA table tok)] := by
  have hinj1 := List.inj_on_of_nodup_map hnd
  have hinj2 := List.inj_on_of_nodup_map hrnd
  have h1 : (buildRoutes table nativeSym sds).filter (tripleMatch sd.fromChain tc tok) =
      (spokeRoutes table nativeSym sd).filter (tripleMatch sd.fromChain tc tok) := by
    unfold buildRoutes
    apply filter_cMap_single _ _ sds sd
      (List.count_eq_one_of_mem (List.Nodup.of_map SpokeData.fromChain hnd) hsd)
    intro y hy hyne
    apply List.filter_eq_nil_iff.mpr
    intro r hr hpr
    obtain ⟨ha, _, _⟩ := (tripleMatch_true_iff _ _ _ r).mp hpr
    have hfc := mem_spokeRoutes_fields hr
    exact hyne (hinj1 hy hsd (hfc.symm.trans ha))
  have h2 : (spokeRoutes table nativeSym sd).filter (tripleMatch sd.fromChain tc tok) =
      (entryRoutes table nativeSym sd (tc, toks)).filter (tripleMatch sd.fromChain tc tok) := by
    unfold spokeRoutes
    apply filter_cMap_single _ _ sd.routes (tc, toks)
      (List.count_eq_one_of_mem (List.Nodup.of_map Prod.fst hrnd) hent)
    intro q hq hqne
    apply List.filter_eq_nil_iff.mpr
    intro r hr hpr
    obtain ⟨_, hb, _⟩ := (tripleMatch_true_iff _ _ _ r).mp hpr
    have htc := (mem_entryRoutes_fields hr).2
    exact hqne (hinj2 hq hent (htc.symm.trans hb))
  have h3 : (entryRoutes table nativeSym sd (tc, toks)).filter (tripleMatch sd.fromChain tc tok) =
      (routesForToken table nativeSym sd tc tok).filter (tripleMatch sd.fromChain tc tok) := by
    unfold entryRoutes
    apply filter_cMap_single _ _ toks tok (List.count_eq_one_of_mem htnd htok)
    intro u hu hune
    apply List.filter_eq_nil_iff.mpr
    intro r hr hpr
    obtain ⟨_, _, hc3⟩ := (tripleMatch_true_iff _ _ _ r).mp hpr
    have hta := (mem_routesForToken hr).2.2.1
    exact hune (hta.symm.trans hc3)
  have h4 : (routesForToken table nativeSym sd tc tok).filter (tripleMatch sd.fromChain tc tok) =
      routesForToken table nativeSym sd tc tok := by
    apply List.filter_eq_self.mpr
    intro r hr
    obtain ⟨ha, hb, hc3, _, _⟩ := mem_routesForToken hr
    exact (tripleMatch_true_iff _ _ _ r).mpr ⟨ha, hb, hc3⟩
  rw [h1, h2, h3, h4]
  by_cases hw : tok = sd.wrappedNativeToken
  · simp [routesForToken, hw]
  · simp [routesForToken, hw]

/-- Witness for C3: in the sample spoke, token `0xW` (the wrapped-native
token) emits two records, token `0xT` emits one. -/
theorem join_native_synthesis_witness :
    ((buildRoutes tableSample (fun _ => "ETH") [sdSample]).filter
        (tripleMatch sdSample.fromChain 1 "0xW") =
      if "0xW" = sdSample.wrappedNativeToken then
        [Route.mk sdSample.fromChain 1 "0xW" sdSample.fromSpokeAddress
           (lookupA sdSample.symbols "0xW") false (lookupA tableSample "0xW"),
         Route.mk sdSample.fromChain 1 "0xW" sdSample.fromSpokeAddress (some "ETH") true
           (lookupA tableSample "0xW")]
      else
        [Route.mk sdSample.fromChain 1 "0xW" sdSample.fromSpokeAddress
           (lookupA sdSample.symbols "0xW") false (lookupA tableSample "0xW")]) ∧
    ((buildRoutes tableSample (fun _ => "ETH") [sdSample]).filter
        (tripleMatch sdSample.fromChain 1 "0xT") =
      if "0xT" = sdSample.wrappedNativeToken then
        [Route.mk sdSample.fromChain 1 "0xT" sdSample.fromSpokeAddress
           (lookupA sdSample.symbols "0xT") false (lookupA tableSample "0xT"),
         Route.mk sdSample.fromChain 1 "0xT" sdSample.fromSpokeAddress (some "ETH") true
           (lookupA tableSample "0xT")]
      else
        [Route.mk sdSample.fromChain 1 "0xT" sdSample.fromSpokeAddress
           (lookupA sdSample.symbols "0xT") false (lookupA tableSample "0xT")]) :=
  ⟨join_native_synthesis tableSample (fun _ => "ETH") [sdSample] sdSample 1
      ["0xW", "0xT"] "0xW" (by simp) (List.mem_cons_self _ _) (by simp [sdSample])
      (by simp [sdSample]) (by decide) (by decide),
   join_native_synthesis tableSample (fun _ => "ETH") [sdSample] sdSample 1
      ["0xW", "0xT"] "0xT" (by simp) (List.mem_cons_self _ _) (by simp [sdSample])
      (by simp [sdSample]) (by decide) (by decide)⟩

end TokenRoutes
